import Mathlib

/-
Verification of the fused recurrent delta-rule state engine
(fla/ops/delta_rule/fused_recurrent.py).

The kernels are embedded over exact rationals: one (sequence, head) unit is a
list of per-timestep inputs, the recurrent state is a K-by-V matrix of
rationals, and each Triton kernel's per-timestep loop becomes structural
recursion over the list, preserving the source's operation order.
-/

namespace DeltaRule

/-- The K-by-V recurrent state matrix held per (sequence, head): entry
(i, j) couples key feature i with value feature j (the kernel's b_h). -/
abbrev Mat (K V : ℕ) := Fin K → Fin V → ℚ

variable {K V : ℕ}

/-- The all-zero state, used when no initial state is supplied. -/
def zeroMat (K V : ℕ) : Mat K V := fun _ _ => 0

/-- Matrix-vector product contracting over the key dimension K
(the kernel's tl.sum over the K axis). -/
def mulVecK (h : Mat K V) (x : Fin K → ℚ) : Fin V → ℚ := fun j => ∑ i, h i j * x i

/-- Matrix-vector product contracting over the value dimension V. -/
def mulVecV (h : Mat K V) (y : Fin V → ℚ) : Fin K → ℚ := fun i => ∑ j, h i j * y j

/-- Outer product of a key-dimension vector and a value-dimension vector. -/
def outer (x : Fin K → ℚ) (y : Fin V → ℚ) : Mat K V := fun i j => x i * y j

/-- Pointwise sum of two states. -/
def matAdd (a b : Mat K V) : Mat K V := fun i j => a i j + b i j

/-- Pointwise difference of two states. -/
def matSub (a b : Mat K V) : Mat K V := fun i j => a i j - b i j

/-- The update-rate (beta) input for one timestep: one scalar per
(sequence, timestep, head), or one value per value feature
(the kernel's IS_BETA_HEADWISE dispatch). -/
inductive Beta (V : ℕ) where
  | scalar (b : ℚ)
  | vector (b : Fin V → ℚ)
deriving DecidableEq

/-- Multiplying a value-dimension vector by beta: elementwise in vector
mode, broadcast in scalar mode (the kernel's b_v *= b_beta). -/
def Beta.apply : Beta V → (Fin V → ℚ) → Fin V → ℚ
  | .scalar b, x => fun j => x j * b
  | .vector b, x => fun j => x j * b j

/-- One timestep of forward input for a single (sequence, head) unit. -/
structure Step (K V : ℕ) where
  q : Fin K → ℚ
  k : Fin K → ℚ
  v : Fin V → ℚ
  beta : Beta V
deriving DecidableEq

/-- Result of the forward kernel on one (sequence, head) unit: the output
buffer o, the value-delta buffer u, and the final state. -/
structure FwdOut (K V : ℕ) where
  o : List (Fin V → ℚ)
  u : List (Fin V → ℚ)
  h : Mat K V
deriving DecidableEq

/-- The forward kernel's timestep loop (fused_recurrent_delta_rule_fwd_kernel,
lines 72-98): at each step it subtracts the state's value prediction from v,
stores that residual into u, scales it by beta, accumulates the outer product
with k into the state, and reads the output with the updated state. -/
def fused_recurrent_delta_rule_fwd_kernel (scale : ℚ) (h : Mat K V) :
    List (Step K V) → FwdOut K V
  | [] => ⟨[], [], h⟩
  | s :: rest =>
    let bv : Fin V → ℚ := fun j => s.v j - ∑ i, h i j * s.k i
    let bv2 : Fin V → ℚ := s.beta.apply bv
    let h2 : Mat K V := fun i j => h i j + s.k i * bv2 j
    let bo : Fin V → ℚ := fun j => ∑ i, h2 i j * (s.q i * scale)
    let r := fused_recurrent_delta_rule_fwd_kernel scale h2 rest
    ⟨bo :: r.o, bv :: r.u, r.h⟩

/-- The host-side forward wrapper (fused_recurrent_delta_rule_fwd): seeds the
state from the optional initial state (zeros otherwise) and returns
(o, u, final_state), the final state only when output_final_state is set. -/
def fused_recurrent_delta_rule_fwd (scale : ℚ) (initial_state : Option (Mat K V))
    (output_final_state : Bool) (steps : List (Step K V)) :
    List (Fin V → ℚ) × List (Fin V → ℚ) × Option (Mat K V) :=
  let r := fused_recurrent_delta_rule_fwd_kernel scale
    (initial_state.getD (zeroMat K V)) steps
  (r.o, r.u, if output_final_state then some r.h else none)

/-- The forward per-timestep update exactly as the specification numbers it:
delta = v - H·k, store delta, v2 = delta⊙beta, H += k⊗v2, o = H·(q·scale)
with the updated H. Written from the spec's wording, to be compared with the
kernel embedding. -/
def state_update_forward_spec (scale : ℚ) (H : Mat K V) :
    List (Step K V) → FwdOut K V
  | [] => ⟨[], [], H⟩
  | s :: rest =>
    let delta : Fin V → ℚ := fun j => s.v j - mulVecK H s.k j
    let vbeta := s.beta.apply delta
    let Hnew := matAdd H (outer s.k vbeta)
    let o := mulVecK Hnew (fun i => s.q i * scale)
    let r := state_update_forward_spec scale Hnew rest
    ⟨o :: r.o, delta :: r.u, r.h⟩

/-- One timestep of backward input for a single (sequence, head) unit.
The field u holds the saved value-delta buffer: the autograd wrapper saves u
in the position of v, so the backward kernel's v argument is the forward's
residual, not the raw value. -/
structure BStep (K V : ℕ) where
  q : Fin K → ℚ
  k : Fin K → ℚ
  u : Fin V → ℚ
  beta : Beta V
  dout : Fin V → ℚ
deriving DecidableEq

/-- The first loop of the backward kernel
(fused_recurrent_delta_rule_bwd_kernel, lines 161-202): reverse-time
accumulation of the state gradient b_dh, producing per-timestep
(dk, dv, dbeta) in forward order together with the final accumulator
(which becomes dh0).  Processing the tail first makes the head (t = 0)
the last timestep visited, exactly the kernel's T-1 .. 0 walk. -/
def fused_recurrent_delta_rule_bwd_passA (scale : ℚ) (dht : Mat K V) :
    List (BStep K V) → Mat K V × List ((Fin K → ℚ) × (Fin V → ℚ) × Beta V)
  | [] => (dht, [])
  | s :: rest =>
    let r := fused_recurrent_delta_rule_bwd_passA scale dht rest
    let dh1 : Mat K V := fun i j => r.1 i j + (s.q i * scale) * s.dout j
    let bdk : Fin K → ℚ := fun i => ∑ j, dh1 i j * s.beta.apply s.u j
    let bdvp : Fin V → ℚ := fun j => ∑ i, dh1 i j * s.k i
    let bdb : Beta V := match s.beta with
      | .scalar _ => .scalar (∑ j, bdvp j * s.u j)
      | .vector _ => .vector (fun j => bdvp j * s.u j)
    let bdv : Fin V → ℚ := s.beta.apply bdvp
    let dh2 : Mat K V := fun i j => dh1 i j - s.k i * bdv j
    (dh2, (bdk, bdv, bdb) :: r.2)

/-- The second loop of the backward kernel
(fused_recurrent_delta_rule_bwd_kernel, lines 206-251): forward-time
correction.  Each element pairs a timestep with the (dk, dv) that the first
loop stored for it; the state is reconstructed as in forward, dk is
corrected against the pre-update state, and dq is read with the updated
state. -/
def fused_recurrent_delta_rule_bwd_passB (scale : ℚ) (h : Mat K V) :
    List (BStep K V × (Fin K → ℚ) × (Fin V → ℚ)) → List ((Fin K → ℚ) × (Fin K → ℚ))
  | [] => []
  | x :: rest =>
    let s := x.1
    let bdk : Fin K → ℚ := fun i => x.2.1 i - ∑ j, x.2.2 j * h i j
    let bv : Fin V → ℚ := s.beta.apply s.u
    let h2 : Mat K V := fun i j => h i j + s.k i * bv j
    let bdq : Fin K → ℚ := fun i => (∑ j, h2 i j * s.dout j) * scale
    (bdq, bdk) :: fused_recurrent_delta_rule_bwd_passB scale h2 rest

/-- The backward kernel on one (sequence, head) unit: the reverse-time pass
followed by the forward-time pass (which re-reads the dk/dv buffers the first
pass stored), returning (final gradient accumulator, dq, dk, dv, dbeta). -/
def fused_recurrent_delta_rule_bwd_kernel (scale : ℚ) (h0 dht : Mat K V)
    (steps : List (BStep K V)) :
    Mat K V × List (Fin K → ℚ) × List (Fin K → ℚ) × List (Fin V → ℚ) × List (Beta V) :=
  let ra := fused_recurrent_delta_rule_bwd_passA scale dht steps
  let rb := fused_recurrent_delta_rule_bwd_passB scale h0
    (steps.zip (ra.2.map (fun g => (g.1, g.2.1))))
  (ra.1, rb.map Prod.fst, rb.map Prod.snd,
    ra.2.map (fun g => g.2.1), ra.2.map (fun g => g.2.2))

/-- Result of the host-side backward wrapper: per-timestep gradients and the
optional initial-state gradient. -/
structure BwdOut (K V : ℕ) where
  dq : List (Fin K → ℚ)
  dk : List (Fin K → ℚ)
  dv : List (Fin V → ℚ)
  db : List (Beta V)
  dh0 : Option (Mat K V)
deriving DecidableEq

/-- The host-side backward wrapper (fused_recurrent_delta_rule_bwd): seeds
the accumulator from dht (zeros otherwise) and the reconstruction state from
the initial state (zeros otherwise); the initial-state gradient is produced
exactly when an initial state was supplied and it requires a gradient
(lines 336-339 and 373). -/
def fused_recurrent_delta_rule_bwd (scale : ℚ) (initial_state : Option (Mat K V))
    (initial_state_requires_grad : Bool) (dht : Option (Mat K V))
    (steps : List (BStep K V)) : BwdOut K V :=
  let r := fused_recurrent_delta_rule_bwd_kernel scale
    (initial_state.getD (zeroMat K V)) (dht.getD (zeroMat K V)) steps
  ⟨r.2.1, r.2.2.1, r.2.2.2.1, r.2.2.2.2,
    if initial_state.isSome && initial_state_requires_grad then some r.1 else none⟩

/-- One reverse-time step of Pass A exactly as the specification words it:
add q·scale ⊗ do to G, read dk, the pre-beta dv and dbeta from G, rescale dv
by beta, then subtract k ⊗ dv from G; the per-step results are consed so the
final list is in forward time order. -/
def specBwdStepA (scale : ℚ)
    (acc : Mat K V × List ((Fin K → ℚ) × (Fin V → ℚ) × Beta V)) (s : BStep K V) :
    Mat K V × List ((Fin K → ℚ) × (Fin V → ℚ) × Beta V) :=
  let G := matAdd acc.1 (outer (fun i => s.q i * scale) s.dout)
  let dk := mulVecV G (s.beta.apply s.u)
  let dvp := mulVecK G s.k
  let db : Beta V := match s.beta with
    | .scalar _ => .scalar (∑ j, dvp j * s.u j)
    | .vector _ => .vector (fun j => dvp j * s.u j)
  let dv := s.beta.apply dvp
  (matSub G (outer s.k dv), (dk, dv, db) :: acc.2)

/-- One forward-time step of Pass B exactly as the specification words it:
correct dk by the pre-update state contracted with dv, advance the state by
the forward recurrence, then read dq from the updated state; results are
appended so the list stays in forward time order. -/
def specBwdStepB (scale : ℚ)
    (acc : Mat K V × List ((Fin K → ℚ) × (Fin K → ℚ)))
    (x : BStep K V × (Fin K → ℚ) × (Fin V → ℚ)) :
    Mat K V × List ((Fin K → ℚ) × (Fin K → ℚ)) :=
  let H := acc.1
  let dk : Fin K → ℚ := fun i => x.2.1 i - mulVecV H x.2.2 i
  let Hnew := matAdd H (outer x.1.k (x.1.beta.apply x.1.u))
  let dq : Fin K → ℚ := fun i => mulVecV Hnew x.1.dout i * scale
  (Hnew, acc.2 ++ [(dq, dk)])

/-- The specification's two-pass backward reference: Pass A walks the
timesteps in reverse (a left fold over the reversed list) accumulating the
state gradient from dht; Pass B re-walks them forward from the initial
state, consuming Pass A's per-step dk and dv.  Written from the spec's
wording, to be compared with the kernel embedding. -/
def state_update_backward_spec (scale : ℚ) (h0 G0 : Mat K V)
    (steps : List (BStep K V)) :
    Mat K V × List (Fin K → ℚ) × List (Fin K → ℚ) × List (Fin V → ℚ) × List (Beta V) :=
  let ra := steps.reverse.foldl (specBwdStepA scale) (G0, [])
  let rb := (steps.zip (ra.2.map (fun g => (g.1, g.2.1)))).foldl
    (specBwdStepB scale) (h0, [])
  (ra.1, rb.2.map Prod.fst, rb.2.map Prod.snd,
    ra.2.map (fun g => g.2.1), ra.2.map (fun g => g.2.2))

/-- Beta is identically zero at a timestep: the scalar is 0, or every
vector component is 0. -/
def Beta.IsZero : Beta V → Prop
  | .scalar b => b = 0
  | .vector b => ∀ j, b j = 0

instance (b : Beta V) : Decidable b.IsZero := by
  cases b with
  | scalar x => exact inferInstanceAs (Decidable (x = 0))
  | vector x => exact inferInstanceAs (Decidable (∀ j, x j = 0))

/-- Turn a scalar-mode beta into the vector-mode beta with every value
component equal to it; vector-mode beta is unchanged. -/
def Beta.broadcast : Beta V → Beta V
  | .scalar b => .vector (fun _ => b)
  | .vector b => .vector b

/-- The total mass of a beta gradient: the scalar itself in scalar mode,
the sum over value components in vector mode. -/
def Beta.total : Beta V → ℚ
  | .scalar b => b
  | .vector b => ∑ j, b j

/-- Reading a beta-shaped gradient at a value component: a vector-mode
gradient is read at the component, a scalar-mode one is the value itself. -/
def Beta.atOrScalar (b : Beta V) (j : Fin V) : ℚ :=
  match b with
  | .scalar c => c
  | .vector c => c j

/-- A forward step with its beta broadcast to vector mode. -/
def Step.broadcastBeta (s : Step K V) : Step K V :=
  ⟨s.q, s.k, s.v, s.beta.broadcast⟩

/-- A backward step with its beta broadcast to vector mode. -/
def BStep.broadcastBeta (s : BStep K V) : BStep K V :=
  ⟨s.q, s.k, s.u, s.beta.broadcast, s.dout⟩

/-- Triton's next_power_of_2: the smallest power of two at least n
(1 for n = 0), used to choose the K-dimension block size BK. -/
def next_power_of_2 (n : ℕ) : ℕ := 2 ^ Nat.clog 2 n

/-- Triton's cdiv: ceiling division, used to count blocks. -/
def cdiv (a b : ℕ) : ℕ := (a + b - 1) / b

/-- The number of independent feature blocks along the K dimension chosen by
the host wrappers: NK = cdiv(K, BK) with BK = next_power_of_2(K)
(fused_recurrent.py lines 266-267 and 319-320). -/
def NK (K : ℕ) : ℕ := cdiv K (next_power_of_2 K)

/-- The forward host wrapper including its NK guard: the Python wrapper
asserts NK == 1 before launching the kernel, so a call with NK different
from 1 fails with the assertion's message and nothing is computed. -/
def fused_recurrent_delta_rule_fwd_checked (scale : ℚ)
    (initial_state : Option (Mat K V)) (output_final_state : Bool)
    (steps : List (Step K V)) :
    Except String (List (Fin V → ℚ) × List (Fin V → ℚ) × Option (Mat K V)) :=
  if NK K = 1 then
    .ok (fused_recurrent_delta_rule_fwd scale initial_state output_final_state steps)
  else
    .error ("NK > 1 is not supported yet")

/-- The backward host wrapper including its NK guard (same assertion as the
forward wrapper, lines 319-321). -/
def fused_recurrent_delta_rule_bwd_checked (scale : ℚ)
    (initial_state : Option (Mat K V)) (initial_state_requires_grad : Bool)
    (dht : Option (Mat K V)) (steps : List (BStep K V)) :
    Except String (BwdOut K V) :=
  if NK K = 1 then
    .ok (fused_recurrent_delta_rule_bwd scale initial_state
      initial_state_requires_grad dht steps)
  else
    .error ("NK > 1 is not supported yet")

/-- The shape information that the top-level entry point
fused_recurrent_delta_rule inspects before launching any kernel: the leading
(batch) dimensions of q, k, v, beta, the leading dimension of the optional
initial state, the optional cu_seqlens array, and the optional scale. -/
structure CallArgs where
  q_batch : ℕ
  k_batch : ℕ
  v_batch : ℕ
  beta_batch : ℕ
  initial_state_batch : Option ℕ
  cu_seqlens : Option (List ℕ)
  scale : Option ℚ
deriving DecidableEq

/-- The scale check of fused_recurrent_delta_rule (lines 518-521): a missing
scale defaults to K ** -0.5 (always positive); a supplied scale must be
strictly positive or the assertion fires. -/
def checkScale : Option ℚ → Except String Unit
  | none => .ok ()
  | some s => if 0 < s then .ok () else .error ("scale must be positive")

/-- The boundary validation performed by fused_recurrent_delta_rule
(lines 507-521), in source order: when cu_seqlens is supplied, q's leading
dimension must be 1 and a supplied initial state must have leading dimension
len(cu_seqlens) - 1; then the scale check runs.  No other tensor's leading
dimension and no element of cu_seqlens is ever inspected. -/
def fused_recurrent_delta_rule_validate (a : CallArgs) : Except String Unit :=
  match a.cu_seqlens with
  | some cu =>
    if a.q_batch ≠ 1 then
      .error ("The batch size is expected to be 1 when using cu_seqlens. Please flatten variable-length inputs before processing.")
    else
      match a.initial_state_batch with
      | some n =>
        if n ≠ cu.length - 1 then
          .error ("The number of initial states is expected to be equal to the number of input sequences.")
        else checkScale a.scale
      | none => checkScale a.scale
  | none => checkScale a.scale

/-- A well-formed cu_seqlens boundary array in the sense of the spec:
starts at 0, strictly increasing, and ends at the total flattened length. -/
def WellFormedCu (cu : List ℕ) (t_total : ℕ) : Prop :=
  cu.head? = some 0 ∧ List.Chain' (fun x y => x < y) cu ∧ cu.getLast? = some t_total

instance (cu : List ℕ) (t : ℕ) : Decidable (WellFormedCu cu t) :=
  inferInstanceAs (Decidable (_ ∧ _ ∧ _))

theorem mulVecK_def (h : Mat K V) (x : Fin K → ℚ) :
    mulVecK h x = fun j => ∑ i, h i j * x i := rfl

theorem mulVecV_def (h : Mat K V) (y : Fin V → ℚ) :
    mulVecV h y = fun i => ∑ j, h i j * y j := rfl

theorem outer_def (x : Fin K → ℚ) (y : Fin V → ℚ) :
    outer x y = fun i j => x i * y j := rfl

theorem matAdd_def (a b : Mat K V) : matAdd a b = fun i j => a i j + b i j := rfl

theorem matSub_def (a b : Mat K V) : matSub a b = fun i j => a i j - b i j := rfl

theorem fwd_kernel_eq_spec (scale : ℚ) (h : Mat K V) (steps : List (Step K V)) :
    fused_recurrent_delta_rule_fwd_kernel scale h steps
      = state_update_forward_spec scale h steps := by
  induction steps generalizing h with
  | nil => rfl
  | cons s rest ih =>
    simp only [fused_recurrent_delta_rule_fwd_kernel, state_update_forward_spec,
      mulVecK_def, matAdd_def, outer_def, ih]

theorem fwd_kernel_lengths (scale : ℚ) (h : Mat K V) (steps : List (Step K V)) :
    (fused_recurrent_delta_rule_fwd_kernel scale h steps).o.length = steps.length ∧
    (fused_recurrent_delta_rule_fwd_kernel scale h steps).u.length = steps.length := by
  induction steps generalizing h with
  | nil => exact ⟨rfl, rfl⟩
  | cons s rest ih =>
    simpa [fused_recurrent_delta_rule_fwd_kernel] using ih _

theorem fwd_kernel_append (scale : ℚ) (h : Mat K V) (xs ys : List (Step K V)) :
    fused_recurrent_delta_rule_fwd_kernel scale h (xs ++ ys) =
      { o := (fused_recurrent_delta_rule_fwd_kernel scale h xs).o ++
          (fused_recurrent_delta_rule_fwd_kernel scale
            ((fused_recurrent_delta_rule_fwd_kernel scale h xs).h) ys).o,
        u := (fused_recurrent_delta_rule_fwd_kernel scale h xs).u ++
          (fused_recurrent_delta_rule_fwd_kernel scale
            ((fused_recurrent_delta_rule_fwd_kernel scale h xs).h) ys).u,
        h := (fused_recurrent_delta_rule_fwd_kernel scale
            ((fused_recurrent_delta_rule_fwd_kernel scale h xs).h) ys).h } := by
  induction xs generalizing h with
  | nil => rfl
  | cons s rest ih =>
    simp [fused_recurrent_delta_rule_fwd_kernel, ih]

/-- The concrete scenario of the spec: K = V = 1, q = k = v = 1, beta = 1. -/
def oneStep : Step 1 1 := ⟨fun _ => 1, fun _ => 1, fun _ => 1, Beta.scalar 1⟩

/-- Claim C1: the forward kernel runs the delta-rule recurrence strictly in
timestep order — delta = v - H·k is stored into the value-delta buffer, the
state is advanced by k ⊗ (delta·beta), and the output is read with the
post-update state and the scaled query — and on the concrete scenario
K = V = 1, T = 3, scale = 1, beta = 1, zero initial state, q = k = v = 1 it
returns output [1, 1, 1] and final state 1. -/
theorem claim_C1_forward_recurrence :
    (∀ (K V : ℕ) (scale : ℚ) (h : Mat K V) (steps : List (Step K V)),
      fused_recurrent_delta_rule_fwd_kernel scale h steps
        = state_update_forward_spec scale h steps)
    ∧ (fused_recurrent_delta_rule_fwd 1 (some (zeroMat 1 1)) true
        [oneStep, oneStep, oneStep]).1.map (fun f => f 0) = [1, 1, 1]
    ∧ ((fused_recurrent_delta_rule_fwd 1 (some (zeroMat 1 1)) true
        [oneStep, oneStep, oneStep]).2.2.map (fun m => m 0 0)) = some 1 := by
  refine ⟨fun K V scale h steps => fwd_kernel_eq_spec scale h steps, ?_, ?_⟩
  · simp [fused_recurrent_delta_rule_fwd, fused_recurrent_delta_rule_fwd_kernel,
      oneStep, Beta.apply, zeroMat, Fin.sum_univ_one]
  · simp [fused_recurrent_delta_rule_fwd, fused_recurrent_delta_rule_fwd_kernel,
      oneStep, Beta.apply, zeroMat, Fin.sum_univ_one]

/-- Claim C3: the recurrence is associative across a split point — running
the prefix with the final state requested and feeding that state as the
initial state of the continuation yields exactly the whole run's outputs,
value-deltas and final state. -/
theorem claim_C3_state_carry_over (K V : ℕ) (scale : ℚ)
    (h0 : Option (Mat K V)) (want : Bool) (xs ys : List (Step K V)) :
    (fused_recurrent_delta_rule_fwd scale h0 want (xs ++ ys)).1
      = (fused_recurrent_delta_rule_fwd scale h0 true xs).1 ++
        (fused_recurrent_delta_rule_fwd scale
          (fused_recurrent_delta_rule_fwd scale h0 true xs).2.2 want ys).1 ∧
    (fused_recurrent_delta_rule_fwd scale h0 want (xs ++ ys)).2.1
      = (fused_recurrent_delta_rule_fwd scale h0 true xs).2.1 ++
        (fused_recurrent_delta_rule_fwd scale
          (fused_recurrent_delta_rule_fwd scale h0 true xs).2.2 want ys).2.1 ∧
    (fused_recurrent_delta_rule_fwd scale h0 want (xs ++ ys)).2.2
      = (fused_recurrent_delta_rule_fwd scale
          (fused_recurrent_delta_rule_fwd scale h0 true xs).2.2 want ys).2.2 := by
  simp only [fused_recurrent_delta_rule_fwd, Option.getD_some, if_true,
    fwd_kernel_append scale (h0.getD (zeroMat K V)) xs ys]
  exact ⟨trivial, trivial, trivial⟩

/-- Claim C9: the forward computation is a deterministic function of its
inputs — two invocations on equal inputs produce equal outputs and equal
value-delta buffers — and the per-timestep order is fully defined: exactly
one output and one value-delta per timestep. -/
theorem claim_C9_forward_determinism (K V : ℕ) (scale : ℚ)
    (h0 : Option (Mat K V)) (want : Bool) (steps1 steps2 : List (Step K V))
    (heq : steps1 = steps2) :
    fused_recurrent_delta_rule_fwd scale h0 want steps1
      = fused_recurrent_delta_rule_fwd scale h0 want steps2 ∧
    (fused_recurrent_delta_rule_fwd scale h0 want steps1).1.length = steps1.length ∧
    (fused_recurrent_delta_rule_fwd scale h0 want steps1).2.1.length = steps1.length := by
  subst heq
  exact ⟨rfl, (fwd_kernel_lengths scale _ steps1).1, (fwd_kernel_lengths scale _ steps1).2⟩

/-- Witness for claim C9 at a concrete input. -/
theorem claim_C9_forward_determinism_witness :
    fused_recurrent_delta_rule_fwd 1 (some (zeroMat 1 1)) true [oneStep]
      = fused_recurrent_delta_rule_fwd 1 (some (zeroMat 1 1)) true [oneStep] ∧
    (fused_recurrent_delta_rule_fwd 1 (some (zeroMat 1 1)) true [oneStep]).1.length = 1 ∧
    (fused_recurrent_delta_rule_fwd 1 (some (zeroMat 1 1)) true [oneStep]).2.1.length = 1 := by
  have h := claim_C9_forward_determinism 1 1 1 (some (zeroMat 1 1)) true
    [oneStep] [oneStep] rfl
  simpa using h

theorem bwd_passA_eq_spec (scale : ℚ) (dht : Mat K V) (steps : List (BStep K V)) :
    steps.reverse.foldl (specBwdStepA scale) (dht, [])
      = fused_recurrent_delta_rule_bwd_passA scale dht steps := by
  induction steps with
  | nil => rfl
  | cons s rest ih =>
    rw [List.reverse_cons, List.foldl_append, ih]
    obtain ⟨q, k, u, beta, dout⟩ := s
    cases beta with
    | scalar b =>
      simp only [List.foldl_cons, List.foldl_nil, specBwdStepA,
        fused_recurrent_delta_rule_bwd_passA, Beta.apply, mulVecK_def,
        mulVecV_def, matAdd_def, matSub_def, outer_def]
    | vector b =>
      simp only [List.foldl_cons, List.foldl_nil, specBwdStepA,
        fused_recurrent_delta_rule_bwd_passA, Beta.apply, mulVecK_def,
        mulVecV_def, matAdd_def, matSub_def, outer_def]

theorem bwd_passB_eq_spec (scale : ℚ) (h : Mat K V)
    (acc : List ((Fin K → ℚ) × (Fin K → ℚ)))
    (l : List (BStep K V × (Fin K → ℚ) × (Fin V → ℚ))) :
    (l.foldl (specBwdStepB scale) (h, acc)).2
      = acc ++ fused_recurrent_delta_rule_bwd_passB scale h l := by
  induction l generalizing h acc with
  | nil => simp [fused_recurrent_delta_rule_bwd_passB]
  | cons x rest ih =>
    simp only [List.foldl_cons, specBwdStepB,
      fused_recurrent_delta_rule_bwd_passB, mulVecV_def, matAdd_def, outer_def]
    rw [ih]
    simp only [List.append_assoc, List.singleton_append]
    have hdk : (fun i => x.2.1 i - ∑ j, h i j * x.2.2 j)
        = (fun i => x.2.1 i - ∑ j, x.2.2 j * h i j) := by
      funext i
      exact congrArg (fun z => x.2.1 i - z)
        (Finset.sum_congr rfl (fun j _ => mul_comm _ _))
    rw [hdk]

/-- Claim C2: the backward kernel equals the specification's two-pass
reference — Pass A walks timesteps from the last to the first with the
gradient accumulator initialized from dht (zeros when absent), adding the
scaled-query/output-gradient outer product before reading dk, dv and dbeta
and subtracting the key/dv outer product after, emitting the final
accumulator; Pass B re-walks forward from the initial state (zeros when
absent), correcting dk with the pre-update state and reading dq with the
post-update state. -/
theorem claim_C2_backward_two_pass (K V : ℕ) (scale : ℚ)
    (initial_state dht : Option (Mat K V)) (steps : List (BStep K V)) :
    fused_recurrent_delta_rule_bwd_kernel scale
        (initial_state.getD (zeroMat K V)) (dht.getD (zeroMat K V)) steps
      = state_update_backward_spec scale
        (initial_state.getD (zeroMat K V)) (dht.getD (zeroMat K V)) steps := by
  simp only [fused_recurrent_delta_rule_bwd_kernel, state_update_backward_spec,
    bwd_passA_eq_spec, bwd_passB_eq_spec, List.nil_append]

theorem Beta.apply_of_isZero {b : Beta V} (hb : b.IsZero) (x : Fin V → ℚ) :
    b.apply x = fun _ => 0 := by
  cases b with
  | scalar c =>
    funext j
    simp only [Beta.apply, Beta.IsZero] at hb ⊢
    rw [hb, mul_zero]
  | vector c =>
    funext j
    simp only [Beta.apply, Beta.IsZero] at hb ⊢
    rw [hb j, mul_zero]

theorem fwd_kernel_zero_beta (scale : ℚ) (h0 : Mat K V) :
    ∀ (steps : List (Step K V)), (∀ s ∈ steps, s.beta.IsZero) →
    (fused_recurrent_delta_rule_fwd_kernel scale h0 steps).h = h0 ∧
    (fused_recurrent_delta_rule_fwd_kernel scale h0 steps).u
      = steps.map (fun s => fun j => s.v j - mulVecK h0 s.k j)
  | [], _ => ⟨rfl, rfl⟩
  | s :: rest, hz => by
    have hs : s.beta.IsZero := hz s (List.mem_cons_self s rest)
    have hr := fwd_kernel_zero_beta scale h0 rest
      (fun t ht => hz t (List.mem_cons_of_mem s ht))
    have hh2 : (fun i j => h0 i j +
        s.k i * s.beta.apply (fun j2 => s.v j2 - ∑ i2, h0 i2 j2 * s.k i2) j) = h0 := by
      rw [Beta.apply_of_isZero hs]
      funext i j
      rw [mul_zero, add_zero]
    simp only [fused_recurrent_delta_rule_fwd_kernel, hh2, List.map_cons]
    exact ⟨hr.1, by rw [hr.2, mulVecK_def]⟩

/-- Claim C6: with beta identically zero at every timestep, the state stays
frozen at the supplied initial state — the returned final state equals the
initial state and every stored value-delta is v minus the initial state's
prediction. -/
theorem claim_C6_zero_beta (K V : ℕ) (scale : ℚ) (h0 : Mat K V)
    (steps : List (Step K V)) (hz : ∀ s ∈ steps, s.beta.IsZero) :
    (fused_recurrent_delta_rule_fwd scale (some h0) true steps).2.2 = some h0 ∧
    (fused_recurrent_delta_rule_fwd scale (some h0) true steps).2.1
      = steps.map (fun s => fun j => s.v j - mulVecK h0 s.k j) := by
  have h := fwd_kernel_zero_beta scale h0 steps hz
  simp only [fused_recurrent_delta_rule_fwd, Option.getD_some, if_true]
  exact ⟨congrArg some h.1, h.2⟩

/-- A concrete step whose beta is the zero scalar. -/
def zeroBetaStep : Step 1 1 := ⟨fun _ => 1, fun _ => 1, fun _ => 1, Beta.scalar 0⟩

/-- Witness for claim C6 at a concrete zero-beta input. -/
theorem claim_C6_zero_beta_witness :
    (fused_recurrent_delta_rule_fwd 1 (some (zeroMat 1 1)) true
      [zeroBetaStep]).2.2 = some (zeroMat 1 1) ∧
    (fused_recurrent_delta_rule_fwd 1 (some (zeroMat 1 1)) true
      [zeroBetaStep]).2.1
      = [zeroBetaStep].map
          (fun s => fun j => s.v j - mulVecK (zeroMat 1 1) s.k j) := by
  exact claim_C6_zero_beta 1 1 1 (zeroMat 1 1) [zeroBetaStep]
    (by intro s hs; simp at hs; rw [hs]; exact rfl)

/-- Claim C10: the backward wrapper returns an initial-state gradient
exactly when an initial state was supplied and it requires a gradient, and
that gradient is the reverse pass's final accumulator; in every other case
the result is none. -/
theorem claim_C10_dh0_gating (K V : ℕ) (scale : ℚ)
    (initial_state : Option (Mat K V)) (rg : Bool) (dht : Option (Mat K V))
    (steps : List (BStep K V)) :
    ((fused_recurrent_delta_rule_bwd scale initial_state rg dht steps).dh0.isSome
      = (initial_state.isSome && rg)) ∧
    ((initial_state.isSome && rg) = true →
      (fused_recurrent_delta_rule_bwd scale initial_state rg dht steps).dh0
        = some (fused_recurrent_delta_rule_bwd_passA scale
            (dht.getD (zeroMat K V)) steps).1) := by
  simp only [fused_recurrent_delta_rule_bwd, fused_recurrent_delta_rule_bwd_kernel]
  constructor
  · by_cases hc : (initial_state.isSome && rg) = true
    · simp [hc]
    · simp [hc]
  · intro hc
    simp [hc]

/-- Witness for claim C10 at a concrete input with an initial state that
requires a gradient. -/
theorem claim_C10_dh0_gating_witness :
    ((fused_recurrent_delta_rule_bwd 1 (some (zeroMat 1 1)) true none
        ([] : List (BStep 1 1))).dh0.isSome
      = ((some (zeroMat 1 1)).isSome && true)) ∧
    (fused_recurrent_delta_rule_bwd 1 (some (zeroMat 1 1)) true none
        ([] : List (BStep 1 1))).dh0
      = some (fused_recurrent_delta_rule_bwd_passA 1
          ((none : Option (Mat 1 1)).getD (zeroMat 1 1)) []).1 := by
  have h := claim_C10_dh0_gating 1 1 1 (some (zeroMat 1 1)) true none []
  exact ⟨h.1, h.2 (by simp)⟩

theorem Beta.apply_broadcast (b : Beta V) (x : Fin V → ℚ) :
    b.broadcast.apply x = b.apply x := by
  cases b <;> rfl

theorem Beta.total_scalar (c : ℚ) : (Beta.scalar c : Beta V).total = c := rfl

theorem Beta.total_vector (c : Fin V → ℚ) :
    (Beta.vector c).total = ∑ j, c j := rfl

theorem fwd_kernel_broadcast (scale : ℚ) (h : Mat K V) (steps : List (Step K V)) :
    fused_recurrent_delta_rule_fwd_kernel scale h (steps.map Step.broadcastBeta)
      = fused_recurrent_delta_rule_fwd_kernel scale h steps := by
  induction steps generalizing h with
  | nil => rfl
  | cons s rest ih =>
    simp only [List.map_cons, fused_recurrent_delta_rule_fwd_kernel,
      Step.broadcastBeta, Beta.apply_broadcast, ih]

theorem bwd_passA_broadcast (scale : ℚ) (dht : Mat K V) :
    ∀ (steps : List (BStep K V)),
    (fused_recurrent_delta_rule_bwd_passA scale dht
        (steps.map BStep.broadcastBeta)).1
      = (fused_recurrent_delta_rule_bwd_passA scale dht steps).1 ∧
    (fused_recurrent_delta_rule_bwd_passA scale dht
        (steps.map BStep.broadcastBeta)).2.map (fun g => (g.1, g.2.1))
      = (fused_recurrent_delta_rule_bwd_passA scale dht steps).2.map
          (fun g => (g.1, g.2.1)) ∧
    (fused_recurrent_delta_rule_bwd_passA scale dht
        (steps.map BStep.broadcastBeta)).2.map (fun g => g.2.2.total)
      = (fused_recurrent_delta_rule_bwd_passA scale dht steps).2.map
          (fun g => g.2.2.total)
  | [] => ⟨rfl, rfl, rfl⟩
  | s :: rest => by
    obtain ⟨h1, h2, h3⟩ := bwd_passA_broadcast scale dht rest
    obtain ⟨q, k, u, beta, dout⟩ := s
    cases beta with
    | scalar b =>
      refine ⟨?_, ?_, ?_⟩ <;>
        simp [List.map_cons, fused_recurrent_delta_rule_bwd_passA,
          BStep.broadcastBeta, Beta.broadcast, Beta.apply,
          Beta.total_scalar, Beta.total_vector, h1, h2, h3]
    | vector b =>
      refine ⟨?_, ?_, ?_⟩ <;>
        simp [List.map_cons, fused_recurrent_delta_rule_bwd_passA,
          BStep.broadcastBeta, Beta.broadcast, Beta.apply,
          Beta.total_scalar, Beta.total_vector, h1, h2, h3]

theorem bwd_passB_broadcast (scale : ℚ) :
    ∀ (h : Mat K V) (l : List (BStep K V × (Fin K → ℚ) × (Fin V → ℚ))),
    fused_recurrent_delta_rule_bwd_passB scale h
        (l.map (Prod.map BStep.broadcastBeta id))
      = fused_recurrent_delta_rule_bwd_passB scale h l
  | _, [] => rfl
  | h, x :: rest => by
    simp only [List.map_cons, fused_recurrent_delta_rule_bwd_passB,
      Prod.map, BStep.broadcastBeta, Beta.apply_broadcast, id]
    rw [bwd_passB_broadcast scale _ rest]

theorem bwd_kernel_broadcast (scale : ℚ) (h0 dht : Mat K V)
    (steps : List (BStep K V)) :
    (fused_recurrent_delta_rule_bwd_kernel scale h0 dht
        (steps.map BStep.broadcastBeta)).1
      = (fused_recurrent_delta_rule_bwd_kernel scale h0 dht steps).1 ∧
    (fused_recurrent_delta_rule_bwd_kernel scale h0 dht
        (steps.map BStep.broadcastBeta)).2.1
      = (fused_recurrent_delta_rule_bwd_kernel scale h0 dht steps).2.1 ∧
    (fused_recurrent_delta_rule_bwd_kernel scale h0 dht
        (steps.map BStep.broadcastBeta)).2.2.1
      = (fused_recurrent_delta_rule_bwd_kernel scale h0 dht steps).2.2.1 ∧
    (fused_recurrent_delta_rule_bwd_kernel scale h0 dht
        (steps.map BStep.broadcastBeta)).2.2.2.1
      = (fused_recurrent_delta_rule_bwd_kernel scale h0 dht steps).2.2.2.1 ∧
    (fused_recurrent_delta_rule_bwd_kernel scale h0 dht
        (steps.map BStep.broadcastBeta)).2.2.2.2.map Beta.total
      = (fused_recurrent_delta_rule_bwd_kernel scale h0 dht steps).2.2.2.2.map
          Beta.total := by
  obtain ⟨h1, h2, h3⟩ := bwd_passA_broadcast scale dht steps
  have hdv : (fused_recurrent_delta_rule_bwd_passA scale dht
      (steps.map BStep.broadcastBeta)).2.map (fun g => g.2.1)
      = (fused_recurrent_delta_rule_bwd_passA scale dht steps).2.map
        (fun g => g.2.1) := by
    have := congrArg (List.map Prod.snd) h2
    simpa [List.map_map, Function.comp] using this
  have hzip : (steps.map BStep.broadcastBeta).zip
      ((fused_recurrent_delta_rule_bwd_passA scale dht
        (steps.map BStep.broadcastBeta)).2.map (fun g => (g.1, g.2.1)))
      = (steps.zip ((fused_recurrent_delta_rule_bwd_passA scale dht steps).2.map
          (fun g => (g.1, g.2.1)))).map (Prod.map BStep.broadcastBeta id) := by
    rw [h2, List.zip_map_left]
  have hdb : (fused_recurrent_delta_rule_bwd_kernel scale h0 dht
      (steps.map BStep.broadcastBeta)).2.2.2.2.map Beta.total
      = (fused_recurrent_delta_rule_bwd_kernel scale h0 dht
        steps).2.2.2.2.map Beta.total := by
    show ((fused_recurrent_delta_rule_bwd_passA scale dht
        (steps.map BStep.broadcastBeta)).2.map (fun g => g.2.2)).map Beta.total
      = ((fused_recurrent_delta_rule_bwd_passA scale dht
        steps).2.map (fun g => g.2.2)).map Beta.total
    simp only [List.map_map]
    simpa [Function.comp] using h3
  refine ⟨h1, ?_, ?_, hdv, hdb⟩ <;>
    simp only [fused_recurrent_delta_rule_bwd_kernel, hzip,
      bwd_passB_broadcast scale h0]

/-- Claim C7 (amended): replacing every beta by its vector-mode broadcast
(each value component equal to the scalar) leaves the forward outputs,
value-delta buffer and final state identical, and leaves the backward
gradients dq, dk, dv and the initial-state gradient identical; the beta
gradient keeps the mode's own shape, with the scalar-mode dbeta equal to
the sum over value components of the vector-mode dbeta (equal totals). -/
theorem claim_C7_scalar_vector_beta (K V : ℕ) (scale : ℚ)
    (h0f : Option (Mat K V)) (want : Bool) (fsteps : List (Step K V))
    (is : Option (Mat K V)) (rg : Bool) (dht : Option (Mat K V))
    (bsteps : List (BStep K V)) :
    fused_recurrent_delta_rule_fwd scale h0f want (fsteps.map Step.broadcastBeta)
      = fused_recurrent_delta_rule_fwd scale h0f want fsteps ∧
    (fused_recurrent_delta_rule_bwd scale is rg dht
        (bsteps.map BStep.broadcastBeta)).dq
      = (fused_recurrent_delta_rule_bwd scale is rg dht bsteps).dq ∧
    (fused_recurrent_delta_rule_bwd scale is rg dht
        (bsteps.map BStep.broadcastBeta)).dk
      = (fused_recurrent_delta_rule_bwd scale is rg dht bsteps).dk ∧
    (fused_recurrent_delta_rule_bwd scale is rg dht
        (bsteps.map BStep.broadcastBeta)).dv
      = (fused_recurrent_delta_rule_bwd scale is rg dht bsteps).dv ∧
    (fused_recurrent_delta_rule_bwd scale is rg dht
        (bsteps.map BStep.broadcastBeta)).dh0
      = (fused_recurrent_delta_rule_bwd scale is rg dht bsteps).dh0 ∧
    (fused_recurrent_delta_rule_bwd scale is rg dht
        (bsteps.map BStep.broadcastBeta)).db.map Beta.total
      = (fused_recurrent_delta_rule_bwd scale is rg dht bsteps).db.map
          Beta.total := by
  obtain ⟨k1, k2, k3, k4, k5⟩ := bwd_kernel_broadcast scale
    (is.getD (zeroMat K V)) (dht.getD (zeroMat K V)) bsteps
  refine ⟨?_, ?_, ?_, ?_, ?_, ?_⟩
  · simp only [fused_recurrent_delta_rule_fwd, fwd_kernel_broadcast]
  · simpa only [fused_recurrent_delta_rule_bwd] using k2
  · simpa only [fused_recurrent_delta_rule_bwd] using k3
  · simpa only [fused_recurrent_delta_rule_bwd] using k4
  · simp only [fused_recurrent_delta_rule_bwd, k1]
  · simpa only [fused_recurrent_delta_rule_bwd] using k5

/-- A concrete backward step with K = 1, V = 2: q = k = 1, saved
value-delta (1, 2), scalar beta 1, output gradient (1, 1). -/
def c7step : BStep 1 2 := ⟨fun _ => 1, fun _ => 1, ![1, 2], Beta.scalar 1, fun _ => 1⟩

/-- Counterexample to claim C7 as stated: at a concrete input the backward
beta gradients of the scalar mode and of the equal-component vector mode are
not identical — the scalar-mode dbeta is 3 while component 0 of the
vector-mode dbeta is 1 — so not all gradients coincide between the modes. -/
theorem claim_C7_counterexample :
    (fused_recurrent_delta_rule_bwd 1 none false none [c7step]).db.map
        (fun b => b.atOrScalar 0)
      ≠ (fused_recurrent_delta_rule_bwd 1 none false none
          [c7step.broadcastBeta]).db.map (fun b => b.atOrScalar 0) ∧
    (fused_recurrent_delta_rule_bwd 1 none false none [c7step]).db
      ≠ (fused_recurrent_delta_rule_bwd 1 none false none
          [c7step.broadcastBeta]).db := by
  have h1 : (fused_recurrent_delta_rule_bwd 1 none false none [c7step]).db.map
      (fun b => b.atOrScalar 0) = [3] := by
    simp [fused_recurrent_delta_rule_bwd, fused_recurrent_delta_rule_bwd_kernel,
      fused_recurrent_delta_rule_bwd_passA, c7step, Beta.apply, Beta.atOrScalar,
      zeroMat, Fin.sum_univ_two, Fin.sum_univ_one]
    norm_num
  have h2 : (fused_recurrent_delta_rule_bwd 1 none false none
      [c7step.broadcastBeta]).db.map (fun b => b.atOrScalar 0) = [1] := by
    simp [fused_recurrent_delta_rule_bwd, fused_recurrent_delta_rule_bwd_kernel,
      fused_recurrent_delta_rule_bwd_passA, c7step, BStep.broadcastBeta,
      Beta.broadcast, Beta.apply, Beta.atOrScalar, zeroMat,
      Fin.sum_univ_two, Fin.sum_univ_one]
  have hne : (fused_recurrent_delta_rule_bwd 1 none false none [c7step]).db.map
      (fun b => b.atOrScalar 0)
      ≠ (fused_recurrent_delta_rule_bwd 1 none false none
          [c7step.broadcastBeta]).db.map (fun b => b.atOrScalar 0) := by
    rw [h1, h2]
    intro hcon
    norm_num at hcon
  exact ⟨hne, fun hcon => hne (by rw [hcon])⟩

theorem NK_eq_one_of_pos {K : ℕ} (hK : 1 ≤ K) : NK K = 1 := by
  have hle : K ≤ 2 ^ Nat.clog 2 K := Nat.le_pow_clog (by norm_num) K
  have hpos : 0 < 2 ^ Nat.clog 2 K := pow_pos (by norm_num) _
  unfold NK cdiv next_power_of_2
  exact Nat.div_eq_of_lt_le (by omega) (by omega)

/-- Claim C8: a call that would require a number of K-dimension feature
blocks different from one is rejected by both host wrappers with the
explicit "not supported" message before anything is computed; and for every
nonempty key dimension the chosen block size (the next power of two above K)
makes the number of K blocks exactly one, so the guarding assertion holds
whenever the kernels run. -/
theorem claim_C8_single_k_block :
    (∀ (K V : ℕ) (scale : ℚ) (is : Option (Mat K V)) (ofs : Bool)
      (steps : List (Step K V)), NK K ≠ 1 →
      fused_recurrent_delta_rule_fwd_checked scale is ofs steps
        = Except.error ("NK > 1 is not supported yet")) ∧
    (∀ (K V : ℕ) (scale : ℚ) (is : Option (Mat K V)) (rg : Bool)
      (dht : Option (Mat K V)) (steps : List (BStep K V)), NK K ≠ 1 →
      fused_recurrent_delta_rule_bwd_checked scale is rg dht steps
        = Except.error ("NK > 1 is not supported yet")) ∧
    (∀ K : ℕ, 1 ≤ K → NK K = 1) := by
  refine ⟨?_, ?_, ?_⟩
  · intro K V scale is ofs steps hNK
    unfold fused_recurrent_delta_rule_fwd_checked
    rw [if_neg hNK]
  · intro K V scale is rg dht steps hNK
    unfold fused_recurrent_delta_rule_bwd_checked
    rw [if_neg hNK]
  · intro K hK
    exact NK_eq_one_of_pos hK

/-- Witness for claim C8: the degenerate K = 0 call is rejected by both
wrappers, and NK 3 = 1 so a K = 3 call passes the assertion. -/
theorem claim_C8_single_k_block_witness :
    fused_recurrent_delta_rule_fwd_checked 1 (some (zeroMat 0 1)) true
        ([] : List (Step 0 1)) = Except.error ("NK > 1 is not supported yet") ∧
    fused_recurrent_delta_rule_bwd_checked 1 (some (zeroMat 0 1)) true none
        ([] : List (BStep 0 1)) = Except.error ("NK > 1 is not supported yet") ∧
    NK 3 = 1 := by
  refine ⟨?_, ?_, ?_⟩
  · exact claim_C8_single_k_block.1 0 1 1 (some (zeroMat 0 1)) true []
      (by simp [NK, cdiv, next_power_of_2, Nat.clog_zero_right])
  · exact claim_C8_single_k_block.2.1 0 1 1 (some (zeroMat 0 1)) true none []
      (by simp [NK, cdiv, next_power_of_2, Nat.clog_zero_right])
  · exact claim_C8_single_k_block.2.2 3 (by norm_num)

/-- Claim C4 (amended): with cu_seqlens provided, the boundary validation
accepts the call exactly when q's leading dimension is 1, any supplied
initial state has leading dimension len(cu_seqlens) - 1, and any supplied
scale is positive; the leading dimensions of k, v and beta are never
inspected. -/
theorem claim_C4_varlen_batch_check (a : CallArgs) (cu : List ℕ)
    (hcu : a.cu_seqlens = some cu) :
    fused_recurrent_delta_rule_validate a = Except.ok () ↔
      (a.q_batch = 1 ∧
        (∀ n, a.initial_state_batch = some n → n = cu.length - 1) ∧
        (∀ s, a.scale = some s → 0 < s)) := by
  obtain ⟨qb, kb, vb, bb, isb, cus, sc⟩ := a
  change cus = some cu at hcu
  subst hcu
  rcases isb with _ | n <;> rcases sc with _ | s <;>
    simp [fused_recurrent_delta_rule_validate, checkScale] <;>
    split_ifs <;> simp_all

/-- Witness for claim C4 (amended): a well-shaped varlen call passes the
validation. -/
theorem claim_C4_varlen_batch_check_witness :
    fused_recurrent_delta_rule_validate ⟨1, 1, 1, 1, some 1, some [0, 5], some 1⟩
      = Except.ok () :=
  (claim_C4_varlen_batch_check ⟨1, 1, 1, 1, some 1, some [0, 5], some 1⟩
    [0, 5] rfl).mpr (by norm_num)

/-- The concrete input refuting claim C4 as stated: cu_seqlens is provided
and k's leading dimension is 2, yet validation succeeds — only q's leading
dimension is checked. -/
def c4args : CallArgs := ⟨1, 2, 1, 1, none, some [0, 5], some 1⟩

/-- Counterexample to claim C4 as stated: a varlen call whose k tensor has
leading batch dimension 2 (not 1) raises no error — the boundary validation
passes, contradicting the claim that any of q, k, v, beta with leading
dimension other than 1 is rejected. -/
theorem claim_C4_counterexample :
    fused_recurrent_delta_rule_validate c4args = Except.ok () ∧
    c4args.k_batch ≠ 1 ∧ c4args.cu_seqlens.isSome = true := by
  refine ⟨?_, by norm_num [c4args], rfl⟩
  simp [c4args, fused_recurrent_delta_rule_validate, checkScale]

/-- Claim C5 (amended): a supplied non-positive scale is rejected eagerly,
before any computation; but the contents of cu_seqlens are never validated —
the boundary checks depend only on its length, so a malformed boundary array
(wrong start, not increasing, or wrong total) is accepted unchanged. -/
theorem claim_C5_scale_check_and_cu_unchecked :
    (∀ (a : CallArgs) (s : ℚ), a.scale = some s → ¬ 0 < s →
      fused_recurrent_delta_rule_validate a ≠ Except.ok ()) ∧
    (∀ (qb kb vb bb : ℕ) (isb : Option ℕ) (sc : Option ℚ) (cu cu2 : List ℕ),
      cu.length = cu2.length →
      fused_recurrent_delta_rule_validate ⟨qb, kb, vb, bb, isb, some cu, sc⟩
        = fused_recurrent_delta_rule_validate ⟨qb, kb, vb, bb, isb, some cu2, sc⟩) := by
  constructor
  · intro a s hs hneg
    obtain ⟨qb, kb, vb, bb, isb, cus, sc⟩ := a
    change sc = some s at hs
    subst hs
    rcases cus with _ | cu <;> rcases isb with _ | n <;>
      simp [fused_recurrent_delta_rule_validate, checkScale, hneg] <;>
      split_ifs <;> simp
  · intro qb kb vb bb isb sc cu cu2 hlen
    rcases isb with _ | n <;>
      simp [fused_recurrent_delta_rule_validate, hlen]

/-- The concrete input refuting claim C5 as stated: cu_seqlens = [1, 3]
does not start at 0, yet validation succeeds. -/
def c5args : CallArgs := ⟨1, 1, 1, 1, none, some [1, 3], some 1⟩

/-- Counterexample to claim C5 as stated: a malformed boundary array (it
starts at 1, not 0) raises no error — the operation never inspects the
contents of cu_seqlens. -/
theorem claim_C5_counterexample :
    fused_recurrent_delta_rule_validate c5args = Except.ok () ∧
    ¬ WellFormedCu [1, 3] 3 := by
  constructor
  · simp [c5args, fused_recurrent_delta_rule_validate, checkScale]
  · decide

/-- Witness for claim C5 (amended): a negative scale is rejected, and two
same-length boundary arrays with different contents validate identically. -/
theorem claim_C5_scale_check_and_cu_unchecked_witness :
    fused_recurrent_delta_rule_validate ⟨1, 1, 1, 1, none, none, some (-1)⟩
      ≠ Except.ok () ∧
    fused_recurrent_delta_rule_validate ⟨1, 1, 1, 1, none, some [1, 3], some 1⟩
      = fused_recurrent_delta_rule_validate ⟨1, 1, 1, 1, none, some [0, 5], some 1⟩ := by
  constructor
  · exact claim_C5_scale_check_and_cu_unchecked.1
      ⟨1, 1, 1, 1, none, none, some (-1)⟩ (-1) rfl (by norm_num)
  · exact claim_C5_scale_check_and_cu_unchecked.2 1 1 1 1 none (some 1)
      [1, 3] [0, 5] rfl

end DeltaRule
